import Mathlib

/-!
Verification of the ocf-worker-sdk Go client against its design document.

The embedding is shallow: Go strings are lists of characters, wall-clock
time is a `Nat` in abstract units, and the side-effecting service calls of
each function are replaced by an explicit environment (the outcome and
duration of every poll, the caller's cancellation instant, and an oracle
resolving Go's random choice among simultaneously ready `select` cases).
Each definition mirrors one function of the source tree; the theorems at
the end of the file settle the frozen claims about `jobs.go`
(`WaitForCompletion`, `isTimeoutError`), `storage.go` (`UploadSources`,
`UploadSourcesStream`), `pkg/generator/generator.go` (`extractRepo`,
`downloadResults`) and `themes.go` (`AutoInstallForJob`).
-/

namespace OcfWorker

/-- Go strings (and byte slices) are modelled as lists of characters. -/
abbrev Str := List Char

/-- Go `strings.Contains s pat`: whether `pat` occurs inside `s`. -/
def strContains : Str → Str → Bool
  | [], pat => pat.isEmpty
  | c :: t, pat => pat.isPrefixOf (c :: t) || strContains t pat

/-- `models.JobStatus`: the remote-reported job states (spec section 4.4). -/
inductive JobStatus where
  | pending
  | processing
  | completed
  | failed
  | timeout
deriving DecidableEq

/-- The wire value of each `models.JobStatus` constant. -/
def JobStatus.str : JobStatus → Str
  | .pending => "pending".data
  | .processing => "processing".data
  | .completed => "completed".data
  | .failed => "failed".data
  | .timeout => "timeout".data

/-- The slice of `models.JobResponse` that `WaitForCompletion` reads:
`Status` and the remote-supplied `Error` message. -/
structure JobResponse where
  status : JobStatus
  errMsg : Str
deriving DecidableEq

/-- A Go `error` value, abstracted to the message its `Error()` method returns. -/
structure GoError where
  msg : Str
deriving DecidableEq

/-- `jobs.go isTimeoutError`: the message-content heuristic that classifies a
fetch error as a retryable request-level timeout. -/
def isTimeoutError (e : GoError) : Bool :=
  strContains e.msg "context deadline exceeded".data || strContains e.msg "timeout".data

/-- `errors.go (*JobNotFoundError).Error()`: the error `Get` returns on HTTP 404. -/
def jobNotFoundError (jobID : Str) : GoError :=
  ⟨"job not found: ".data ++ jobID⟩

/-- `jobs.go WaitOptions`: polling interval and total timeout, in abstract time units. -/
structure WaitOptions where
  interval : Nat
  timeout : Nat
deriving DecidableEq

/-- One outcome of `s.Get` inside the polling loop: a decoded snapshot or an error. -/
inductive FetchOutcome where
  | ok (job : JobResponse)
  | err (e : GoError)
deriving DecidableEq

/-- The three channels of the `select` in `WaitForCompletion`:
`waitCtx.Done()`, the caller's `ctx.Done()`, and `ticker.C`. -/
inductive Ev where
  | waitDone
  | ctxDone
  | tick
deriving DecidableEq

/-- What one call of `WaitForCompletion` can return. -/
inductive WaitResult where
  | completedOk (job : JobResponse)
  | waitTimeout
  | canceled
  | fetchFailed (e : GoError)
  | jobFailed (job : JobResponse)
deriving DecidableEq

/-- The error text of the fatal-status branch:
`fmt.Errorf("job failed with status %s: %s", job.Status, job.Error)`. -/
def jobFailedMsg (job : JobResponse) : Str :=
  "job failed with status ".data ++ job.status.str ++ ": ".data ++ job.errMsg

/-- The environment of one `WaitForCompletion` call: the outcome and duration of
the n-th status fetch, the instant (if any) at which the caller's context is
cancelled, and an oracle resolving Go's uniformly random choice among the
ready cases of the `select` at the n-th loop iteration. -/
structure WaitEnv where
  polls : Nat → FetchOutcome
  durs : Nat → Nat
  cancelTime : Option Nat
  oracle : Nat → Ev

/-- Whether `waitCtx.Done()` (deadline `opts.Timeout` from the start of polling)
is ready at time `t`. -/
def readyWait (opts : WaitOptions) (t : Nat) : Bool :=
  decide (opts.timeout ≤ t)

/-- Whether the caller's `ctx.Done()` is ready at time `t`. -/
def readyCancel (env : WaitEnv) (t : Nat) : Bool :=
  match env.cancelTime with
  | some c => decide (c ≤ t)
  | none => false

/-- Whether `ticker.C` holds an unconsumed tick at time `t`: the ticker has fired
`t / interval` times and `k` of those firings were consumed or dropped. -/
def readyTick (opts : WaitOptions) (t k : Nat) : Bool :=
  decide (k < t / opts.interval)

/-- The time of the next event that can wake the blocked `select`: the next
ticker firing, the internal deadline, or the caller's cancellation. -/
def nextWake (opts : WaitOptions) (env : WaitEnv) (k : Nat) : Nat :=
  let c1 := min ((k + 1) * opts.interval) opts.timeout
  match env.cancelTime with
  | some c => min c1 c
  | none => c1

/-- Go's `select` with the oracle's choice `o`: an oracle pick that is ready is
taken; otherwise the first ready channel (at least one case must be ready). -/
def selectPick (o : Ev) (rw rc rt : Bool) : Ev :=
  match o with
  | .waitDone => if rw then .waitDone else if rc then .ctxDone else .tick
  | .ctxDone => if rc then .ctxDone else if rw then .waitDone else .tick
  | .tick => if rt then .tick else if rw then .waitDone else .ctxDone

/-- The time at which the blocked `select` of one loop iteration wakes up: the
current time if some channel is already ready, otherwise the next event. -/
def wakeTime (opts : WaitOptions) (env : WaitEnv) (t k : Nat) : Nat :=
  if readyWait opts t || readyCancel env t || readyTick opts t k then t
  else nextWake opts env k

/-- The polling loop of `jobs.go WaitForCompletion` (lines 151-178), fuel-indexed
by the number of loop iterations. State: current time `t`, ticker firings
already consumed or dropped `k`, status fetches performed `n`. On each
iteration the loop blocks until a channel is ready, runs the `select`, and on a
tick fetches the snapshot: a fetch error classified by `isTimeoutError` is
swallowed and the loop retries, any other fetch error is returned as is;
status `completed` returns the snapshot, `failed` and `timeout` return the
fatal status error, `pending` and `processing` continue. Consuming a tick
empties the ticker's one-slot channel, so the consumed-or-dropped count jumps
to every firing up to the wake time. The result is paired with the total
number of fetches performed. -/
def waitRun (opts : WaitOptions) (env : WaitEnv) :
    Nat → Nat → Nat → Nat → Option (WaitResult × Nat)
  | 0, _, _, _ => none
  | fuel + 1, t, k, n =>
    match selectPick (env.oracle n) (readyWait opts (wakeTime opts env t k))
        (readyCancel env (wakeTime opts env t k))
        (readyTick opts (wakeTime opts env t k) k) with
    | .waitDone => some (.waitTimeout, n)
    | .ctxDone => some (.canceled, n)
    | .tick =>
      match env.polls n with
      | .err e =>
        if isTimeoutError e then
          waitRun opts env fuel (wakeTime opts env t k + env.durs n)
            (wakeTime opts env t k / opts.interval) (n + 1)
        else some (.fetchFailed e, n + 1)
      | .ok job =>
        match job.status with
        | .completed => some (.completedOk job, n + 1)
        | .failed => some (.jobFailed job, n + 1)
        | .timeout => some (.jobFailed job, n + 1)
        | .pending => waitRun opts env fuel (wakeTime opts env t k + env.durs n)
            (wakeTime opts env t k / opts.interval) (n + 1)
        | .processing => waitRun opts env fuel (wakeTime opts env t k + env.durs n)
            (wakeTime opts env t k / opts.interval) (n + 1)

/-- `jobs.go WaitForCompletion`: a nil `opts` falls back to a 5 s interval and a
10 min total timeout (here in milliseconds); polling starts at time 0 with no
tick consumed and no fetch performed. -/
def waitForCompletion (opts : Option WaitOptions) (env : WaitEnv) (fuel : Nat) :
    Option (WaitResult × Nat) :=
  let o := match opts with
    | none => ⟨5000, 600000⟩
    | some o => o
  waitRun o env fuel 0 0 0

/-- An environment whose service always answers `pending` instantly, with the
caller never cancelling. -/
def envPending : WaitEnv :=
  ⟨fun _ => .ok ⟨.pending, []⟩, fun _ => 0, none, fun _ => .tick⟩

/-- An environment whose only fetch takes 10 time units, long enough to carry
the loop past both the caller's cancellation (time 2) and the internal
deadline; the oracle then picks the internal-deadline channel. -/
def envSlowFetch : WaitEnv :=
  ⟨fun _ => .ok ⟨.pending, []⟩, fun _ => 10, some 2, fun _ => .waitDone⟩

/-- An environment where the caller cancels immediately (time 0) and the
service would keep answering `pending` instantly. -/
def envCancelNow : WaitEnv :=
  ⟨fun _ => .ok ⟨.pending, []⟩, fun _ => 0, some 0, fun _ => .tick⟩

/-- A poll outcome on which the loop keeps polling: a retryable (timeout-like)
fetch error, or a non-terminal snapshot. -/
def retryableOutcome : FetchOutcome → Prop
  | .err e => isTimeoutError e = true
  | .ok job => job.status = .pending ∨ job.status = .processing

/-- An environment answering `processing` on the first poll and `completed` on
the second, instantly, with no cancellation. -/
def envCompletesSecond : WaitEnv :=
  ⟨fun n => if n = 0 then .ok ⟨.processing, []⟩ else .ok ⟨.completed, []⟩,
    fun _ => 0, none, fun _ => .tick⟩

/-- An environment whose first poll reports remote status `failed` with a
remote-supplied message. -/
def envFailsFirst : WaitEnv :=
  ⟨fun _ => .ok ⟨.failed, "boom".data⟩, fun _ => 0, none, fun _ => .tick⟩

/-- An environment answering a job-not-found error for a job whose id happens
to contain the word the retry heuristic looks for, then `completed`. -/
def envNotFoundTimeoutId : WaitEnv :=
  ⟨fun n => if n = 0 then .err (jobNotFoundError "timeout".data)
    else .ok ⟨.completed, []⟩, fun _ => 0, none, fun _ => .tick⟩

/-- An environment whose first poll fails with a request-level timeout message
and whose second poll reports `completed`. -/
def envTransientThenDone : WaitEnv :=
  ⟨fun n => if n = 0 then .err ⟨"request timeout".data⟩ else .ok ⟨.completed, []⟩,
    fun _ => 0, none, fun _ => .tick⟩

/-- An environment whose every poll fails with job-not-found for id "abc". -/
def envNotFoundAbc : WaitEnv :=
  ⟨fun _ => .err (jobNotFoundError "abc".data), fun _ => 0, none, fun _ => .tick⟩

/-- Go `strings.HasPrefix`. -/
def hasPrefixGo (s pre : Str) : Bool :=
  pre.isPrefixOf s

/-- Go `strings.TrimPrefix`: drops `pre` from the front of `s` when present,
otherwise returns `s` unchanged. -/
def trimPrefixGo (s pre : Str) : Str :=
  if pre.isPrefixOf s then s.drop pre.length else s

/-- Go `filepath.Base` for slash-free-tail paths: the last path component. -/
def lastComponent (s : Str) : Str :=
  (s.reverse.takeWhile (· != '/')).reverse

/-- Go `filepath.Ext`: the suffix of the last component starting at its final
dot, empty when the last component has no dot. -/
def extGo (s : Str) : Str :=
  let b := lastComponent s
  let tl := b.reverse.takeWhile (· != '.')
  if tl.length = b.length then [] else '.' :: tl.reverse

/-- The extension allowlist of `pkg/generator/utils.go isSlidevFile`. -/
def supportedExts : List Str :=
  [".md".data, ".css".data, ".scss".data, ".less".data, ".js".data, ".ts".data,
    ".vue".data, ".json".data, ".yaml".data, ".yml".data, ".png".data, ".jpg".data,
    ".jpeg".data, ".gif".data, ".svg".data, ".woff".data, ".woff2".data,
    ".ttf".data, ".eot".data]

/-- `pkg/generator/utils.go isSlidevFile`: a file is supported when its
lower-cased extension is on the allowlist, or its lower-cased base name is
`readme` or `license`. -/
def isSlidevFile (filename : Str) : Bool :=
  let ext := (extGo filename).map Char.toLower
  if supportedExts.any (fun e => ext == e) then true
  else
    let base := (lastComponent filename).map Char.toLower
    base == "readme".data || base == "license".data

/-- One entry of a zip archive: its name and whether it is a directory. -/
structure ZipEntry where
  name : Str
  isDir : Bool
deriving DecidableEq

/-- The per-entry body of `pkg/generator/generator.go extractRepo` (lines
415-453): strip the synthetic `<repo>-<branch>/` root (skipping entries
outside it), filter by the sub-path restriction with `strings.HasPrefix` and
strip it with `strings.TrimPrefix` (plus one leading slash), skip empty paths,
directories and unsupported files; `some` is the relative path the entry is
extracted to. -/
def extractEntry (repoPrefixStr subPath : Str) (f : ZipEntry) : Option Str :=
  let relativePath := trimPrefixGo f.name (repoPrefixStr ++ "/".data)
  if relativePath = f.name then none
  else
    let step : Option Str :=
      if subPath ≠ [] then
        if hasPrefixGo relativePath subPath then
          some (trimPrefixGo (trimPrefixGo relativePath subPath) "/".data)
        else none
      else some relativePath
    match step with
    | none => none
    | some rp =>
      if rp = [] ∨ f.isDir then none
      else if isSlidevFile rp then some rp
      else none

/-- `pkg/generator/generator.go extractRepo`, with the filesystem writes
elided: the relative paths (under the output directory) of the extracted
files, in archive order. -/
def extractRepo (entries : List ZipEntry) (repoPrefixStr subPath : Str) : List Str :=
  entries.filterMap (extractEntry repoPrefixStr subPath)

/-- The claim's set, from the spec's words: the supported non-directory files
whose original archive path was under the synthetic root
`<repo>-<branch>/X/`, with the `X/` prefix stripped from returned paths. -/
def specSubfolderExtract (entries : List ZipEntry) (repoPrefixStr subPath : Str) :
    List Str :=
  entries.filterMap (fun f =>
    let root := repoPrefixStr ++ "/".data ++ subPath ++ "/".data
    if ¬ f.isDir ∧ hasPrefixGo f.name root = true then
      let rp := f.name.drop root.length
      if isSlidevFile rp then some rp else none
    else none)

/-- Amended description of the code's per-entry behaviour, in the spec's
terms: keep a non-directory supported file exactly when its original archive
path, with the synthetic root stripped, has the sub-folder restriction as a
plain string prefix (not necessarily a whole path component); the returned
path is what follows that string, with at most one leading slash removed. -/
def amendedEntry (repoPrefixStr subPath : Str) (f : ZipEntry) : Option Str :=
  if hasPrefixGo f.name (repoPrefixStr ++ "/".data) then
    if hasPrefixGo (f.name.drop (repoPrefixStr ++ "/".data).length) subPath then
      if f.isDir = false ∧
          trimPrefixGo ((f.name.drop (repoPrefixStr ++ "/".data).length).drop
            subPath.length) "/".data ≠ [] ∧
          isSlidevFile (trimPrefixGo ((f.name.drop
            (repoPrefixStr ++ "/".data).length).drop subPath.length) "/".data) = true
      then some (trimPrefixGo ((f.name.drop (repoPrefixStr ++ "/".data).length).drop
        subPath.length) "/".data)
      else none
    else none
  else none

/-- Amended description of the code's behaviour, still in the spec's terms:
the sub-folder restriction is a plain string-prefix test on the path under the
synthetic root, and what is stripped is that string plus at most one
following slash. -/
def specSubfolderExtractAmended (entries : List ZipEntry) (repoPrefixStr subPath : Str) :
    List Str :=
  entries.filterMap (amendedEntry repoPrefixStr subPath)

/-- `storage.go FileUpload`: a file to upload in memory — relative path, byte
content and a detected content type. -/
structure FileUpload where
  name : Str
  content : Str
  contentType : Str
deriving DecidableEq

/-- `storage.go StreamUpload`: a file to upload in streaming mode — relative
path, the bytes that reading the handle yields, the advertised size and a
detected content type. -/
structure StreamUpload where
  name : Str
  readerContent : Str
  size : Nat
  contentType : Str
deriving DecidableEq

/-- Go's `mime/multipart` `escapeQuotes`: backslashes and double quotes are
escaped in header parameter values. -/
def escapeQuotes (s : Str) : Str :=
  s.flatMap fun c =>
    if c = '\\' then ['\\', '\\'] else if c = '"' then ['\\', '"'] else [c]

/-- The bytes `(*multipart.Writer).CreateFormFile` emits for one part: the
boundary line (preceded by CRLF for every part but the first), a
`Content-Disposition` header carrying the field name and the file name, and a
hard-coded `Content-Type: application/octet-stream` header. -/
def formFilePartHeader (isFirst : Bool) (boundary fieldname filename : Str) : Str :=
  (if isFirst then "--".data else "\r\n--".data) ++ boundary ++ "\r\n".data
    ++ "Content-Disposition: form-data; name=\"".data ++ escapeQuotes fieldname
    ++ "\"; filename=\"".data ++ escapeQuotes filename ++ "\"\r\n".data
    ++ "Content-Type: application/octet-stream\r\n".data
    ++ "\r\n".data

/-- A `mime/multipart` writer: its boundary, the bytes written so far and
whether a part has been opened. -/
structure MPWriter where
  boundary : Str
  out : Str
  hasPart : Bool
deriving DecidableEq

/-- `multipart.NewWriter` over a fresh buffer (the boundary kept abstract). -/
def mpInit (boundary : Str) : MPWriter :=
  ⟨boundary, [], false⟩

/-- `(*multipart.Writer).CreateFormFile` for field `fieldname`, file `filename`. -/
def createFormFile (w : MPWriter) (fieldname filename : Str) : MPWriter :=
  ⟨w.boundary, w.out ++ formFilePartHeader (!w.hasPart) w.boundary fieldname filename, true⟩

/-- Writing bytes to the current part (`part.Write` / `io.Copy(part, reader)`). -/
def partWrite (w : MPWriter) (content : Str) : MPWriter :=
  ⟨w.boundary, w.out ++ content, w.hasPart⟩

/-- `(*multipart.Writer).Close`: the terminating boundary line. -/
def mpClose (w : MPWriter) : MPWriter :=
  ⟨w.boundary, w.out ++ "\r\n--".data ++ w.boundary ++ "--\r\n".data, w.hasPart⟩

/-- The multipart body `storage.go UploadSources` (lines 37-54) builds: for
each file, `CreateFormFile("files", name)` then `part.Write(content)`; then
`writer.Close()`. -/
def uploadSourcesBody (boundary : Str) (files : List FileUpload) : Str :=
  (mpClose (files.foldl
    (fun w f => partWrite (createFormFile w "files".data f.name) f.content)
    (mpInit boundary))).out

/-- The multipart body the goroutine of `storage.go UploadSourcesStream`
(lines 83-111) streams through the pipe: for each upload,
`CreateFormFile("files", name)` then `io.Copy(part, reader)`; the deferred
`writer.Close()` emits the terminating boundary. -/
def uploadSourcesStreamBody (boundary : Str) (uploads : List StreamUpload) : Str :=
  (mpClose (uploads.foldl
    (fun w u => partWrite (createFormFile w "files".data u.name) u.readerContent)
    (mpInit boundary))).out

/-- The count field of `models.FileUploadResponse`, as decoded from a success
response body. -/
structure FileUploadResponse where
  count : Nat
deriving DecidableEq

/-- The service's answer to an upload request: HTTP status and the decoded
body of a success. -/
structure UploadHttpResponse where
  status : Nat
  body : FileUploadResponse
deriving DecidableEq

/-- The response handling of `UploadSources` (lines 70-79): any status other
than 201 Created is a structured API error (abstracted to its status code), a
success returns the decoded accepted-file count. -/
def uploadSourcesOutcome (resp : UploadHttpResponse) : Except Nat FileUploadResponse :=
  if resp.status ≠ 201 then .error resp.status else .ok resp.body

/-- The response handling of `UploadSourcesStream` (lines 119-128), identical
to the in-memory mode's. -/
def uploadSourcesStreamOutcome (resp : UploadHttpResponse) :
    Except Nat FileUploadResponse :=
  if resp.status ≠ 201 then .error resp.status else .ok resp.body

/-- `storage.go detectContentType` (lines 271-289): the extension-based
content-type detection of the in-memory upload path. -/
def detectContentType (filename : Str) : Str :=
  if ".md".data.isSuffixOf filename then "text/markdown".data
  else if ".css".data.isSuffixOf filename then "text/css".data
  else if ".js".data.isSuffixOf filename then "application/javascript".data
  else if ".json".data.isSuffixOf filename then "application/json".data
  else if ".png".data.isSuffixOf filename then "image/png".data
  else if ".jpg".data.isSuffixOf filename ∨ ".jpeg".data.isSuffixOf filename then
    "image/jpeg".data
  else "application/octet-stream".data

/-- `pkg/generator Result`, the slice `downloadResults` fills (JobID and
CourseID are set by the caller). -/
structure GenResult where
  outputDir : Str
  indexPath : Str
  archivePath : Str
  files : List Str
deriving DecidableEq

/-- Go's `filepath.Glob` pattern `<extractDir>/**/index.html`: `**` is two
adjacent `*` wildcards, each matching a run of non-separator characters, so
the pattern matches exactly `extractDir/<one segment>/index.html`. -/
def globStarIndexHtml (extractDir : Str) (f : Str) : Bool :=
  hasPrefixGo f (extractDir ++ "/".data) &&
    ((f.drop (extractDir ++ "/".data).length).drop
        ((f.drop (extractDir ++ "/".data).length).takeWhile (· != '/')).length
      == "/index.html".data)

/-- `pkg/generator/generator.go downloadResults` (lines 222-275), with the
transport and filesystem elided: the archive is saved as
`<outputDir>/presentation.zip` and extracted into `<outputDir>/presentation`
(`extractZipFile` keeps every non-directory entry, joined under the extract
directory); the entry-point path starts as `<extractDir>/index.html`, and only
when no extracted file has that exact path does the glob fallback run, keeping
the path unchanged when the fallback finds nothing. -/
def downloadResults (outputDir : Str) (entries : List ZipEntry) : GenResult :=
  ⟨outputDir,
    (if ((entries.filter (fun f => !f.isDir)).map
          (fun f => outputDir ++ "/presentation".data ++ "/".data ++ f.name)).contains
        (outputDir ++ "/presentation".data ++ "/index.html".data) then
      outputDir ++ "/presentation".data ++ "/index.html".data
    else
      match ((entries.filter (fun f => !f.isDir)).map
          (fun f => outputDir ++ "/presentation".data ++ "/".data ++ f.name)).filter
          (globStarIndexHtml (outputDir ++ "/presentation".data)) with
      | [] => outputDir ++ "/presentation".data ++ "/index.html".data
      | m :: _ => m),
    outputDir ++ "/presentation.zip".data,
    (entries.filter (fun f => !f.isDir)).map
      (fun f => outputDir ++ "/presentation".data ++ "/".data ++ f.name)⟩

/-- One per-theme entry of `models.ThemeAutoInstallResponse.Results`. -/
structure ThemeResult where
  theme : Str
  success : Bool
deriving DecidableEq

/-- The slice of `models.ThemeAutoInstallResponse` that `AutoInstallForJob`
touches: the remote-supplied Successful count and the per-theme Results. -/
structure ThemeAutoInstallResponse where
  successful : Nat
  results : List ThemeResult
deriving DecidableEq

/-- The service's answer to the auto-install request: HTTP status and the
decoded body of a success. -/
structure ThemesHttpResponse where
  status : Nat
  body : ThemeAutoInstallResponse
deriving DecidableEq

/-- `themes.go AutoInstallForJob` (lines 81-102): any status other than 200 is
a structured API error (abstracted to its status code); on success the decoded
body is returned with `result.Successful = len(result.Results)` overwriting
whatever count the service supplied. -/
def autoInstallForJob (resp : ThemesHttpResponse) : Except Nat ThemeAutoInstallResponse :=
  if resp.status ≠ 200 then .error resp.status
  else .ok ⟨resp.body.results.length, resp.body.results⟩

/-- An infix occurrence makes `strContains` true. -/
theorem strContains_of_infix {s pat : Str} (h : pat <:+: s) : strContains s pat = true := by
  induction s with
  | nil =>
    rw [List.infix_nil] at h
    subst h
    rfl
  | cons c t ih =>
    obtain ⟨pre, post, hpp⟩ := h
    cases pre with
    | nil =>
      have hpfx : pat <+: c :: t := ⟨post, by simpa using hpp⟩
      simp [strContains, List.isPrefixOf_iff_prefix.mpr hpfx]
    | cons a pre' =>
      have htail : pat <:+: t := ⟨pre', post, by simpa using congrArg List.tail hpp⟩
      simp [strContains, ih htail]

/-- C1, counterexample: with `Timeout = 1 < 2 = Interval` and a service that
always answers `pending`, `WaitForCompletion` returns the internal
wait-timeout having performed zero status fetches, contrary to the claimed
at-least-one check. -/
theorem c1_zero_checks_counterexample :
    waitForCompletion (some ⟨2, 1⟩) envPending 5 = some (.waitTimeout, 0) ∧ (1 : Nat) < 2 := by
  exact ⟨by decide, by decide⟩

/-- C1 (amended): whenever `Timeout < Interval` and the caller never cancels,
the internal deadline is ready before the first ticker firing, so
`WaitForCompletion` returns the internal wait-timeout error with exactly zero
status fetches performed. -/
theorem c1_timeout_lt_interval_zero_fetches (opts : WaitOptions) (env : WaitEnv) (fuel : Nat)
    (hfuel : 0 < fuel) (hTI : opts.timeout < opts.interval) (hcan : env.cancelTime = none) :
    waitForCompletion (some opts) env fuel = some (.waitTimeout, 0) := by
  obtain ⟨f, rfl⟩ : ∃ f, fuel = f + 1 := ⟨fuel - 1, by omega⟩
  have hdiv0 : opts.timeout / opts.interval = 0 := Nat.div_eq_of_lt hTI
  show waitRun opts env (f + 1) 0 0 0 = some (.waitTimeout, 0)
  rw [waitRun]
  have hwt : wakeTime opts env 0 0 = opts.timeout := by
    rw [wakeTime]
    rcases Nat.eq_zero_or_pos opts.timeout with h0 | hpos
    · have h1 : readyWait opts 0 = true := by
        simp [readyWait, h0]
      rw [h1]
      simp [h0]
    · have h1 : readyWait opts 0 = false := by
        simp only [readyWait, decide_eq_false_iff_not]
        omega
      have h2 : readyCancel env 0 = false := by
        simp [readyCancel, hcan]
      have h3 : readyTick opts 0 0 = false := by
        simp [readyTick]
      rw [h1, h2, h3]
      rw [if_neg (by simp)]
      simp only [nextWake, hcan, Nat.zero_add, Nat.one_mul]
      exact min_eq_right (le_of_lt hTI)
  rw [hwt]
  have hrw : readyWait opts opts.timeout = true := by
    simp [readyWait]
  have hrc : readyCancel env opts.timeout = false := by
    simp [readyCancel, hcan]
  have hrt : readyTick opts opts.timeout 0 = false := by
    simp [readyTick, hdiv0]
  rw [hrw, hrc, hrt]
  cases h : env.oracle 0 <;> simp [selectPick]

/-- Witness for C1's amended theorem at `Interval = 3`, `Timeout = 1`. -/
theorem c1_timeout_lt_interval_witness :
    waitForCompletion (some ⟨3, 1⟩) envPending 1 = some (.waitTimeout, 0) :=
  c1_timeout_lt_interval_zero_fetches ⟨3, 1⟩ envPending 1 (by decide) (by decide) rfl

/-- C2, counterexample: the caller cancels at time 2, strictly before the
internal deadline at time 3, but a 10-unit fetch makes both channels ready at
the next `select`, and Go's random choice may take the internal-deadline
branch: the run returns the internal timeout error, not a cancellation. -/
theorem c2_cancel_first_counterexample :
    waitForCompletion (some ⟨1, 3⟩) envSlowFetch 3 = some (.waitTimeout, 1) ∧ (2 : Nat) < 3 := by
  exact ⟨by decide, by decide⟩

/-- When the internal-deadline channel is not ready, the `select` never picks
it, whatever the oracle says. -/
theorem selectPick_of_waitDone_not_ready (o : Ev) (rc rt : Bool) :
    selectPick o false rc rt = .ctxDone ∨ selectPick o false rc rt = .tick := by
  cases o <;> cases rc <;> cases rt <;> simp [selectPick]

/-- Invariant behind the amended C2: while the current time stays at or before
the cancellation instant `c < Timeout`, and every fetch is instantaneous, the
internal-deadline channel is never ready, so the loop can never return the
internal wait-timeout; and if every snapshot is non-terminal and every fetch
error is retryable, the only possible returned result is the cancellation. -/
theorem waitRun_cancel_inv (opts : WaitOptions) (env : WaitEnv) (c : Nat)
    (hcan : env.cancelTime = some c) (hcT : c < opts.timeout)
    (hd : ∀ i, env.durs i = 0) :
    ∀ fuel t k n res m, t ≤ c → waitRun opts env fuel t k n = some (res, m) →
      res ≠ .waitTimeout ∧
      ((∀ i job, env.polls i = .ok job → job.status = .pending ∨ job.status = .processing) →
        (∀ i e, env.polls i = .err e → isTimeoutError e = true) → res = .canceled) := by
  intro fuel
  induction fuel with
  | zero =>
    intro t k n res m _ h
    exact absurd h (by simp [waitRun])
  | succ f ih =>
    intro t k n res m htc h
    rw [waitRun] at h
    have hwtc : wakeTime opts env t k ≤ c := by
      rw [wakeTime]
      split
      · exact htc
      · simp only [nextWake, hcan]
        exact Nat.min_le_right _ _
    have hrw : readyWait opts (wakeTime opts env t k) = false := by
      simp only [readyWait, decide_eq_false_iff_not]
      omega
    rw [hrw] at h
    have hrec : ∀ hr : waitRun opts env f (wakeTime opts env t k + env.durs n)
        (wakeTime opts env t k / opts.interval) (n + 1) = some (res, m),
        res ≠ .waitTimeout ∧
        ((∀ i job, env.polls i = .ok job →
            job.status = .pending ∨ job.status = .processing) →
          (∀ i e, env.polls i = .err e → isTimeoutError e = true) → res = .canceled) := by
      intro hr
      exact ih _ _ _ res m (by rw [hd n, Nat.add_zero]; exact hwtc) hr
    split at h
    · rename_i hp
      rcases selectPick_of_waitDone_not_ready (env.oracle n)
        (readyCancel env (wakeTime opts env t k))
        (readyTick opts (wakeTime opts env t k) k) with h' | h' <;> rw [h'] at hp <;>
        simp at hp
    · cases h
      exact ⟨by simp, fun _ _ => rfl⟩
    · split at h
      · rename_i e hp
        split at h
        · exact hrec h
        · rename_i histe
          cases h
          refine ⟨by simp, fun _ herr => absurd (herr n e hp) histe⟩
      · rename_i job hp
        rcases hs : job.status with _ | _ | _ | _ | _ <;> rw [hs] at h
        · exact hrec h
        · exact hrec h
        · cases h
          refine ⟨by simp, fun hok _ => ?_⟩
          rcases hok n job hp with h' | h' <;> simp [hs] at h'
        · cases h
          refine ⟨by simp, fun hok _ => ?_⟩
          rcases hok n job hp with h' | h' <;> simp [hs] at h'
        · cases h
          refine ⟨by simp, fun hok _ => ?_⟩
          rcases hok n job hp with h' | h' <;> simp [hs] at h'

/-- C2 (amended): if the caller cancels at instant `c`, strictly before the
internal deadline, and every snapshot fetch is instantaneous (so no fetch
carries the loop past both deadlines at once), then `WaitForCompletion` can
never return the internal wait-timeout error, and over non-terminal,
retryable-error-free polling every returned result is the cancellation error.
When an in-flight fetch makes both channels ready at the same `select`, the
choice is random and either error may be returned. -/
theorem c2_cancel_before_deadline (opts : WaitOptions) (env : WaitEnv) (c : Nat)
    (hcan : env.cancelTime = some c) (hcT : c < opts.timeout)
    (hd : ∀ i, env.durs i = 0) (fuel : Nat) (res : WaitResult) (m : Nat)
    (h : waitForCompletion (some opts) env fuel = some (res, m)) :
    res ≠ .waitTimeout ∧
    ((∀ i job, env.polls i = .ok job → job.status = .pending ∨ job.status = .processing) →
      (∀ i e, env.polls i = .err e → isTimeoutError e = true) → res = .canceled) :=
  waitRun_cancel_inv opts env c hcan hcT hd fuel 0 0 0 res m (Nat.zero_le c) h

/-- Witness for C2's amended theorem: cancellation at time 0, deadline 1; the
run returns the cancellation error, which is not the internal timeout. -/
theorem c2_cancel_before_deadline_witness :
    (WaitResult.canceled ≠ WaitResult.waitTimeout) ∧
    ((∀ i job, envCancelNow.polls i = .ok job →
        job.status = .pending ∨ job.status = .processing) →
      (∀ i e, envCancelNow.polls i = .err e → isTimeoutError e = true) →
      WaitResult.canceled = .canceled) :=
  c2_cancel_before_deadline ⟨1, 1⟩ envCancelNow 0 rfl (by decide) (fun _ => rfl)
    1 .canceled 0 (by decide)

/-- One clean loop iteration: with no cancellation, instantaneous fetch and the
next ticker firing strictly before the internal deadline, the `select`
necessarily takes the tick at time `(k+1) * interval` and the iteration is
decided by the n-th poll outcome. -/
theorem waitRun_tick_step (opts : WaitOptions) (env : WaitEnv) (fuel k n : Nat)
    (hI : 0 < opts.interval) (hcan : env.cancelTime = none)
    (hT : (k + 1) * opts.interval < opts.timeout) (hd : env.durs n = 0) :
    waitRun opts env (fuel + 1) (k * opts.interval) k n =
      match env.polls n with
      | .err e =>
        if isTimeoutError e then
          waitRun opts env fuel ((k + 1) * opts.interval) (k + 1) (n + 1)
        else some (.fetchFailed e, n + 1)
      | .ok job =>
        match job.status with
        | .completed => some (.completedOk job, n + 1)
        | .failed => some (.jobFailed job, n + 1)
        | .timeout => some (.jobFailed job, n + 1)
        | .pending => waitRun opts env fuel ((k + 1) * opts.interval) (k + 1) (n + 1)
        | .processing => waitRun opts env fuel ((k + 1) * opts.interval) (k + 1) (n + 1) := by
  have hsm : (k + 1) * opts.interval = k * opts.interval + opts.interval :=
    Nat.succ_mul k opts.interval
  have hkk : k * opts.interval / opts.interval = k := Nat.mul_div_cancel _ hI
  have hk1 : (k + 1) * opts.interval / opts.interval = k + 1 := Nat.mul_div_cancel _ hI
  have hwt : wakeTime opts env (k * opts.interval) k = (k + 1) * opts.interval := by
    rw [wakeTime]
    have h1 : readyWait opts (k * opts.interval) = false := by
      simp only [readyWait, decide_eq_false_iff_not]
      omega
    have h2 : readyCancel env (k * opts.interval) = false := by
      simp [readyCancel, hcan]
    have h3 : readyTick opts (k * opts.interval) k = false := by
      simp [readyTick, hkk]
    rw [h1, h2, h3]
    rw [if_neg (by simp)]
    simp only [nextWake, hcan]
    exact min_eq_left (le_of_lt hT)
  rw [waitRun, hwt]
  have hrw : readyWait opts ((k + 1) * opts.interval) = false := by
    simp only [readyWait, decide_eq_false_iff_not]
    omega
  have hrc : readyCancel env ((k + 1) * opts.interval) = false := by
    simp [readyCancel, hcan]
  have hrt : readyTick opts ((k + 1) * opts.interval) k = true := by
    simp [readyTick, hk1]
  rw [hrw, hrc, hrt]
  have hsel : selectPick (env.oracle n) false false true = .tick := by
    cases env.oracle n <;> simp [selectPick]
  rw [hsel, hd, hk1]
  rfl

/-- `M` clean iterations in a row: with no cancellation, instantaneous fetches,
retryable-or-non-terminal outcomes and the `(k+M)`-th ticker firing strictly
before the deadline, the loop advances by `M` ticks and `M` fetches. -/
theorem waitRun_skip (opts : WaitOptions) (env : WaitEnv)
    (hI : 0 < opts.interval) (hcan : env.cancelTime = none) :
    ∀ M k n fuel, (k + M) * opts.interval < opts.timeout →
    (∀ i, i < M → env.durs (n + i) = 0) →
    (∀ i, i < M → retryableOutcome (env.polls (n + i))) →
    waitRun opts env (fuel + M) (k * opts.interval) k n =
      waitRun opts env fuel ((k + M) * opts.interval) (k + M) (n + M) := by
  intro M
  induction M with
  | zero =>
    intro k n fuel _ _ _
    simp
  | succ M ih =>
    intro k n fuel hT hd hr
    have hT1 : (k + 1) * opts.interval < opts.timeout := by
      have hmono : (k + 1) * opts.interval ≤ (k + (M + 1)) * opts.interval :=
        Nat.mul_le_mul_right _ (by omega)
      omega
    have hd0 : env.durs n = 0 := by
      have := hd 0 (by omega)
      simpa using this
    have hstep := waitRun_tick_step opts env (fuel + M) k n hI hcan hT1 hd0
    have hf : fuel + (M + 1) = (fuel + M) + 1 := by omega
    rw [hf, hstep]
    have hkeq : k + 1 + M = k + (M + 1) := by omega
    have hneq : n + 1 + M = n + (M + 1) := by omega
    have ihh := ih (k + 1) (n + 1) fuel (by rw [hkeq]; exact hT)
      (fun i hi => by
        have h' : n + 1 + i = n + (i + 1) := by omega
        rw [h']
        exact hd (i + 1) (by omega))
      (fun i hi => by
        have h' : n + 1 + i = n + (i + 1) := by omega
        rw [h']
        exact hr (i + 1) (by omega))
    have hr0 := hr 0 (by omega)
    rw [Nat.add_zero] at hr0
    rcases hp : env.polls n with job | e
    · have hr0' : job.status = .pending ∨ job.status = .processing := by
        rw [hp] at hr0
        exact hr0
      simp only [hp]
      rcases hr0' with hs | hs <;> simp only [hs] <;> rw [ihh, hkeq, hneq]
    · have hr0' : isTimeoutError e = true := by
        rw [hp] at hr0
        exact hr0
      simp only [hp, hr0', if_true]
      rw [ihh, hkeq, hneq]

/-- C4: if polls `0..N-2` return non-terminal snapshots and poll `N-1` returns a
`completed` snapshot, with budget to spare (`N` ticker firings strictly before
the internal deadline, no cancellation, instantaneous fetches, enough fuel),
then `WaitForCompletion` performs exactly `N` fetches and returns the `N`-th
snapshot successfully. -/
theorem c4_completed_on_nth_poll (opts : WaitOptions) (env : WaitEnv) (N : Nat)
    (jobN : JobResponse) (fuel : Nat) (hI : 0 < opts.interval)
    (hcan : env.cancelTime = none) (hN : 1 ≤ N)
    (hT : N * opts.interval < opts.timeout)
    (hd : ∀ i, i < N → env.durs i = 0)
    (hpre : ∀ i, i < N - 1 → ∃ job, env.polls i = .ok job ∧
      (job.status = .pending ∨ job.status = .processing))
    (hlast : env.polls (N - 1) = .ok jobN) (hcomp : jobN.status = .completed)
    (hfuel : N ≤ fuel) :
    waitForCompletion (some opts) env fuel = some (.completedOk jobN, N) := by
  show waitRun opts env fuel 0 0 0 = some (.completedOk jobN, N)
  have hmono : (N - 1) * opts.interval ≤ N * opts.interval :=
    Nat.mul_le_mul_right _ (by omega)
  have hfeq : fuel = ((fuel - N) + 1) + (N - 1) := by omega
  rw [hfeq]
  have hskip := waitRun_skip opts env hI hcan (N - 1) 0 0 ((fuel - N) + 1)
    (by rw [Nat.zero_add]; omega)
    (fun i hi => by rw [Nat.zero_add]; exact hd i (by omega))
    (fun i hi => by
      rw [Nat.zero_add]
      obtain ⟨job, hp, hs⟩ := hpre i hi
      rw [hp]
      exact hs)
  rw [Nat.zero_mul, Nat.zero_add] at hskip
  rw [hskip]
  have hN1 : N - 1 + 1 = N := by omega
  have hstep := waitRun_tick_step opts env (fuel - N) (N - 1) (N - 1) hI hcan
    (by rw [hN1]; exact hT) (hd (N - 1) (by omega))
  rw [hstep]
  simp only [hlast, hcomp, hN1]

/-- C5: if polls `0..N-2` return non-terminal snapshots and poll `N-1` returns a
snapshot whose remote-reported status is `failed` or `timeout`, the loop ends
there with the fatal status error, and that error's text contains both the
literal status value and the remote-supplied error message. -/
theorem c5_failed_status_error_text (opts : WaitOptions) (env : WaitEnv) (N : Nat)
    (jobN : JobResponse) (fuel : Nat) (hI : 0 < opts.interval)
    (hcan : env.cancelTime = none) (hN : 1 ≤ N)
    (hT : N * opts.interval < opts.timeout)
    (hd : ∀ i, i < N → env.durs i = 0)
    (hpre : ∀ i, i < N - 1 → ∃ job, env.polls i = .ok job ∧
      (job.status = .pending ∨ job.status = .processing))
    (hlast : env.polls (N - 1) = .ok jobN)
    (hfail : jobN.status = .failed ∨ jobN.status = .timeout)
    (hfuel : N ≤ fuel) :
    waitForCompletion (some opts) env fuel = some (.jobFailed jobN, N) ∧
    strContains (jobFailedMsg jobN) jobN.status.str = true ∧
    strContains (jobFailedMsg jobN) jobN.errMsg = true := by
  refine ⟨?_, ?_, ?_⟩
  · show waitRun opts env fuel 0 0 0 = some (.jobFailed jobN, N)
    have hmono : (N - 1) * opts.interval ≤ N * opts.interval :=
      Nat.mul_le_mul_right _ (by omega)
    have hfeq : fuel = ((fuel - N) + 1) + (N - 1) := by omega
    rw [hfeq]
    have hskip := waitRun_skip opts env hI hcan (N - 1) 0 0 ((fuel - N) + 1)
      (by rw [Nat.zero_add]; omega)
      (fun i hi => by rw [Nat.zero_add]; exact hd i (by omega))
      (fun i hi => by
        rw [Nat.zero_add]
        obtain ⟨job, hp, hs⟩ := hpre i hi
        rw [hp]
        exact hs)
    rw [Nat.zero_mul, Nat.zero_add] at hskip
    rw [hskip]
    have hN1 : N - 1 + 1 = N := by omega
    have hstep := waitRun_tick_step opts env (fuel - N) (N - 1) (N - 1) hI hcan
      (by rw [hN1]; exact hT) (hd (N - 1) (by omega))
    rw [hstep]
    rcases hfail with hs | hs <;> simp only [hlast, hs, hN1]
  · refine strContains_of_infix ⟨"job failed with status ".data,
      ": ".data ++ jobN.errMsg, ?_⟩
    simp [jobFailedMsg, List.append_assoc]
  · refine strContains_of_infix ⟨"job failed with status ".data ++ jobN.status.str
      ++ ": ".data, [], ?_⟩
    simp [jobFailedMsg, List.append_assoc]

/-- Witness for C4 at `N = 2`: exactly two fetches, second snapshot returned. -/
theorem c4_completed_on_nth_poll_witness :
    waitForCompletion (some ⟨1, 5⟩) envCompletesSecond 2 =
      some (.completedOk ⟨.completed, []⟩, 2) :=
  c4_completed_on_nth_poll ⟨1, 5⟩ envCompletesSecond 2 ⟨.completed, []⟩ 2
    (by decide) rfl (by decide) (by decide) (fun _ _ => rfl)
    (fun i hi => by
      have h0 : i = 0 := by omega
      subst h0
      exact ⟨⟨.processing, []⟩, rfl, .inr rfl⟩)
    rfl rfl (by decide)

/-- Witness for C5 at `N = 1`: the fatal error embeds status and message. -/
theorem c5_failed_status_error_text_witness :
    waitForCompletion (some ⟨1, 5⟩) envFailsFirst 1 =
      some (.jobFailed ⟨.failed, "boom".data⟩, 1) ∧
    strContains (jobFailedMsg ⟨.failed, "boom".data⟩)
      (JobStatus.failed.str) = true ∧
    strContains (jobFailedMsg ⟨.failed, "boom".data⟩) "boom".data = true :=
  c5_failed_status_error_text ⟨1, 5⟩ envFailsFirst 1 ⟨.failed, "boom".data⟩ 1
    (by decide) rfl (by decide) (by decide) (fun _ _ => rfl)
    (fun i hi => absurd hi (by omega)) rfl (.inl rfl) (by decide)

/-- C3 (amended): over an uncancelled run with instantaneous fetches and room
before the internal deadline, (a) a first-poll fetch error classified by
`isTimeoutError` as a request-level timeout is swallowed and the loop retries
on the next tick — a `completed` second poll then ends the run successfully
after exactly two fetches; and (b) a first-poll job-not-found error whose
message does not match the timeout heuristic ends the loop immediately: the
not-found error is returned with exactly one fetch performed. -/
theorem c3_transient_retry_not_found_fatal :
    (∀ (opts : WaitOptions) (env : WaitEnv) (e : GoError) (jobC : JobResponse),
      0 < opts.interval → env.cancelTime = none →
      env.polls 0 = .err e → isTimeoutError e = true →
      env.polls 1 = .ok jobC → jobC.status = .completed →
      2 * opts.interval < opts.timeout →
      env.durs 0 = 0 → env.durs 1 = 0 →
      ∀ g, waitForCompletion (some opts) env (g + 2) = some (.completedOk jobC, 2)) ∧
    (∀ (opts : WaitOptions) (env : WaitEnv) (jobID : Str),
      0 < opts.interval → env.cancelTime = none →
      env.polls 0 = .err (jobNotFoundError jobID) →
      isTimeoutError (jobNotFoundError jobID) = false →
      opts.interval < opts.timeout → env.durs 0 = 0 →
      ∀ g, waitForCompletion (some opts) env (g + 1) =
        some (.fetchFailed (jobNotFoundError jobID), 1)) := by
  constructor
  · intro opts env e jobC hI hcan hp0 hist hp1 hcomp hT hd0 hd1 g
    show waitRun opts env (g + 2) 0 0 0 = some (.completedOk jobC, 2)
    have hT1 : (0 + 1) * opts.interval < opts.timeout := by
      have : (0 + 1) * opts.interval = opts.interval := by ring
      rw [this]
      omega
    have hstep1 := waitRun_tick_step opts env (g + 1) 0 0 hI hcan hT1 hd0
    rw [Nat.zero_mul] at hstep1
    show waitRun opts env ((g + 1) + 1) 0 0 0 = some (.completedOk jobC, 2)
    rw [hstep1]
    simp only [hp0, hist, if_true]
    have hT2 : (1 + 1) * opts.interval < opts.timeout := by
      have : (1 + 1) * opts.interval = 2 * opts.interval := by ring
      rw [this]
      exact hT
    have hstep2 := waitRun_tick_step opts env g 1 1 hI hcan hT2 hd1
    rw [Nat.zero_add]
    rw [hstep2]
    simp only [hp1, hcomp]
  · intro opts env jobID hI hcan hp0 hist hT hd0 g
    show waitRun opts env (g + 1) 0 0 0 = some (.fetchFailed (jobNotFoundError jobID), 1)
    have hT1 : (0 + 1) * opts.interval < opts.timeout := by
      have : (0 + 1) * opts.interval = opts.interval := by ring
      rw [this]
      omega
    have hstep := waitRun_tick_step opts env g 0 0 hI hcan hT1 hd0
    rw [Nat.zero_mul] at hstep
    rw [hstep]
    simp only [hp0, hist, Bool.false_eq_true, if_false]

/-- C3, counterexample: for the job id "timeout" the not-found message
"job not found: timeout" matches the timeout heuristic, so the fatal not-found
error of the very first poll is swallowed: a second fetch is performed and the
run ends successfully instead of failing fast with the not-found error. -/
theorem c3_not_found_swallowed_counterexample :
    isTimeoutError (jobNotFoundError "timeout".data) = true ∧
    waitForCompletion (some ⟨1, 5⟩) envNotFoundTimeoutId 3 =
      some (.completedOk ⟨.completed, []⟩, 2) :=
  ⟨by decide, by decide⟩

/-- Witness for C3's amended theorem: a transient timeout error is retried and
the run completes on the second poll; a not-found for the id "abc" is fatal
after exactly one fetch. -/
theorem c3_transient_retry_not_found_fatal_witness :
    waitForCompletion (some ⟨1, 5⟩) envTransientThenDone 4 =
      some (.completedOk ⟨.completed, []⟩, 2) ∧
    waitForCompletion (some ⟨1, 5⟩) envNotFoundAbc 2 =
      some (.fetchFailed (jobNotFoundError "abc".data), 1) :=
  ⟨c3_transient_retry_not_found_fatal.1 ⟨1, 5⟩ envTransientThenDone
      ⟨"request timeout".data⟩ ⟨.completed, []⟩ (by decide) rfl rfl (by decide)
      rfl rfl (by decide) rfl rfl 2,
    c3_transient_retry_not_found_fatal.2 ⟨1, 5⟩ envNotFoundAbc "abc".data
      (by decide) rfl rfl (by decide) (by decide) rfl 1⟩

/-- C6, counterexample: with sub-folder `docs`, the archive entry
`repo-main/docs2/a.md` lies outside `repo-main/docs/`, yet extraction returns
it (as `2/a.md`): the string-prefix test accepts `docs2/a.md`. -/
theorem c6_subfolder_counterexample :
    extractRepo [⟨"repo-main/docs2/a.md".data, false⟩] "repo-main".data "docs".data
      = ["2/a.md".data] ∧
    specSubfolderExtract [⟨"repo-main/docs2/a.md".data, false⟩] "repo-main".data
      "docs".data = [] := by
  exact ⟨by decide, by decide⟩

/-- `trimPrefixGo` on an actual prefix is `drop`. -/
theorem trimPrefixGo_of_isPrefixOf {s pre : Str} (h : pre.isPrefixOf s = true) :
    trimPrefixGo s pre = s.drop pre.length := by
  simp [trimPrefixGo, h]

/-- `trimPrefixGo` without the prefix is the identity. -/
theorem trimPrefixGo_of_not_isPrefixOf {s pre : Str} (h : pre.isPrefixOf s = false) :
    trimPrefixGo s pre = s := by
  simp [trimPrefixGo, h]

/-- The two guard shapes — continue-on-empty-or-directory then the support
test, against one conjunction — agree. -/
theorem extractGuard_eq (rp : Str) (d : Bool) :
    (if rp = [] ∨ d = true then none
      else if isSlidevFile rp = true then some rp else none) =
    (if d = false ∧ rp ≠ [] ∧ isSlidevFile rp = true then some rp else none) := by
  cases d <;> by_cases hnil : rp = [] <;> cases hsl : isSlidevFile rp <;>
    simp [hnil, hsl]

/-- The per-entry equivalence behind the amended C6. -/
theorem extractEntry_eq_amended (repoPrefixStr subPath : Str) (hsub : subPath ≠ [])
    (f : ZipEntry) :
    extractEntry repoPrefixStr subPath f = amendedEntry repoPrefixStr subPath f := by
  simp only [extractEntry, amendedEntry]
  by_cases hpre : (repoPrefixStr ++ "/".data).isPrefixOf f.name = true
  case neg =>
    have hpre' : (repoPrefixStr ++ "/".data).isPrefixOf f.name = false := by
      cases h : (repoPrefixStr ++ "/".data).isPrefixOf f.name
      · rfl
      · exact absurd h hpre
    have hx : hasPrefixGo f.name (repoPrefixStr ++ "/".data) = false := hpre'
    rw [trimPrefixGo_of_not_isPrefixOf hpre', if_pos rfl, hx, if_neg (by simp)]
  case pos =>
    have hplen : 1 ≤ (repoPrefixStr ++ "/".data).length := by
      rw [List.length_append]
      simp
    have hslen : (repoPrefixStr ++ "/".data).length ≤ f.name.length :=
      (List.isPrefixOf_iff_prefix.mp hpre).length_le
    have hne : f.name.drop (repoPrefixStr ++ "/".data).length ≠ f.name := by
      intro heq
      have hlen := congrArg List.length heq
      rw [List.length_drop] at hlen
      omega
    have hx : hasPrefixGo f.name (repoPrefixStr ++ "/".data) = true := hpre
    rw [trimPrefixGo_of_isPrefixOf hpre, if_neg hne, if_pos hsub, hx, if_pos rfl]
    by_cases hp2 : subPath.isPrefixOf (f.name.drop (repoPrefixStr ++ "/".data).length) = true
    case pos =>
      have hy : hasPrefixGo (f.name.drop (repoPrefixStr ++ "/".data).length) subPath
          = true := hp2
      rw [hy, if_pos rfl, if_pos rfl, trimPrefixGo_of_isPrefixOf hp2]
      exact extractGuard_eq _ f.isDir
    case neg =>
      have hp2' : subPath.isPrefixOf (f.name.drop (repoPrefixStr ++ "/".data).length)
          = false := by
        cases h : subPath.isPrefixOf (f.name.drop (repoPrefixStr ++ "/".data).length)
        · rfl
        · exact absurd h hp2
      have hy : hasPrefixGo (f.name.drop (repoPrefixStr ++ "/".data).length) subPath
          = false := hp2'
      rw [hy, if_neg (by simp), if_neg (by simp)]

/-- C6 (amended): for every archive and non-empty sub-folder restriction `X`,
extraction returns exactly the supported non-directory files whose path under
the synthetic root `<repo>-<branch>/` has `X` as a string prefix — not
necessarily as a whole path component — with that string and at most one
following slash stripped from the returned relative paths. -/
theorem c6_subfolder_string_prefix (entries : List ZipEntry)
    (repoPrefixStr subPath : Str) (hsub : subPath ≠ []) :
    extractRepo entries repoPrefixStr subPath =
      specSubfolderExtractAmended entries repoPrefixStr subPath := by
  rw [extractRepo, specSubfolderExtractAmended]
  induction entries with
  | nil => rfl
  | cons f fs ih =>
    rw [List.filterMap_cons, List.filterMap_cons, ih,
      extractEntry_eq_amended repoPrefixStr subPath hsub f]

/-- Witness for C6's amended theorem on a two-entry archive: `docs/a.md` is
returned as `a.md`, the unsupported and out-of-scope entries are dropped. -/
theorem c6_subfolder_string_prefix_witness :
    extractRepo [⟨"repo-main/docs/a.md".data, false⟩, ⟨"repo-main/other/b.md".data, false⟩]
        "repo-main".data "docs".data =
      specSubfolderExtractAmended
        [⟨"repo-main/docs/a.md".data, false⟩, ⟨"repo-main/other/b.md".data, false⟩]
        "repo-main".data "docs".data :=
  c6_subfolder_string_prefix
    [⟨"repo-main/docs/a.md".data, false⟩, ⟨"repo-main/other/b.md".data, false⟩]
    "repo-main".data "docs".data (by decide)

/-- C7: over corresponding inputs — same names, same byte contents, same
order — the in-memory and the streaming upload build identical multipart
bodies for any boundary, and given the same service response both modes
return the same outcome, in particular the same accepted-file count on
success. -/
theorem c7_upload_modes_equivalent (files : List FileUpload)
    (uploads : List StreamUpload)
    (hcorr : files.map (fun f => (f.name, f.content)) =
      uploads.map (fun u => (u.name, u.readerContent))) :
    (∀ boundary, uploadSourcesBody boundary files =
      uploadSourcesStreamBody boundary uploads) ∧
    (∀ resp, uploadSourcesOutcome resp = uploadSourcesStreamOutcome resp) ∧
    (∀ resp r, uploadSourcesOutcome resp = .ok r →
      uploadSourcesStreamOutcome resp = .ok r ∧ r.count = resp.body.count) := by
  refine ⟨fun boundary => ?_, fun resp => rfl, fun resp r h => ⟨h, ?_⟩⟩
  · rw [uploadSourcesBody, uploadSourcesStreamBody]
    suffices hgen : ∀ w : MPWriter,
        files.foldl (fun w f => partWrite (createFormFile w "files".data f.name) f.content) w =
        uploads.foldl (fun w u => partWrite (createFormFile w "files".data u.name) u.readerContent) w by
      rw [hgen]
    induction files generalizing uploads with
    | nil =>
      cases uploads with
      | nil => intro w; rfl
      | cons u us => exact absurd hcorr (by simp)
    | cons f fs ih =>
      cases uploads with
      | nil => exact absurd hcorr (by simp)
      | cons u us =>
        intro w
        simp only [List.map_cons, List.cons.injEq, Prod.mk.injEq] at hcorr
        obtain ⟨⟨hn, hc⟩, htl⟩ := hcorr
        rw [List.foldl_cons, List.foldl_cons, hn, hc]
        exact ih us htl _
  · rw [uploadSourcesOutcome] at h
    by_cases hs : resp.status ≠ 201
    · rw [if_pos hs] at h
      cases h
    · rw [if_neg hs] at h
      cases h
      rfl

/-- Witness for C7 on one corresponding pair of single-file batches. -/
theorem c7_upload_modes_equivalent_witness :
    (∀ boundary, uploadSourcesBody boundary [⟨"a.md".data, "# hi".data, "text/markdown".data⟩] =
      uploadSourcesStreamBody boundary [⟨"a.md".data, "# hi".data, 4, "text/markdown".data⟩]) ∧
    (∀ resp, uploadSourcesOutcome resp = uploadSourcesStreamOutcome resp) ∧
    (∀ resp r, uploadSourcesOutcome resp = .ok r →
      uploadSourcesStreamOutcome resp = .ok r ∧ r.count = resp.body.count) :=
  c7_upload_modes_equivalent [⟨"a.md".data, "# hi".data, "text/markdown".data⟩]
    [⟨"a.md".data, "# hi".data, 4, "text/markdown".data⟩] (by decide)

/-- C8: the part built for the file `slides.md` does carry the file's relative
path as its part file name, but its `Content-Type` header is the hard-coded
`application/octet-stream` of `CreateFormFile`: the detected content type
(`text/markdown`, stored in `FileUpload.ContentType`) appears nowhere in the
transmitted encoding. -/
theorem c8_content_type_dropped :
    detectContentType "slides.md".data = "text/markdown".data ∧
    strContains
      (uploadSourcesBody "b1".data [⟨"slides.md".data, "# hi".data, "text/markdown".data⟩])
      "filename=\"slides.md\"".data = true ∧
    strContains
      (uploadSourcesBody "b1".data [⟨"slides.md".data, "# hi".data, "text/markdown".data⟩])
      "Content-Type: application/octet-stream".data = true ∧
    strContains
      (uploadSourcesBody "b1".data [⟨"slides.md".data, "# hi".data, "text/markdown".data⟩])
      "text/markdown".data = false := by
  refine ⟨by decide, by decide, by decide, by decide⟩

/-- C9, counterexample: extracting an archive with no `index.html` anywhere
still succeeds with all paths populated, but the entry-point path on the
Result is the (non-existent) root-level candidate
`out/presentation/index.html` — not the empty string the claim requires. -/
theorem c9_index_path_counterexample :
    (downloadResults "out".data [⟨"a.css".data, false⟩, ⟨"b.js".data, false⟩]).files =
      ["out/presentation/a.css".data, "out/presentation/b.js".data] ∧
    (downloadResults "out".data [⟨"a.css".data, false⟩, ⟨"b.js".data, false⟩]).indexPath =
      "out/presentation/index.html".data ∧
    (downloadResults "out".data [⟨"a.css".data, false⟩, ⟨"b.js".data, false⟩]).indexPath
      ≠ [] := by
  refine ⟨by decide, by decide, by decide⟩

/-- The last path component of `x ++ "/" ++ n` is the last component of `n`. -/
theorem lastComponent_append_slash (x n : Str) :
    lastComponent (x ++ "/".data ++ n) = lastComponent n := by
  have hrev : (x ++ "/".data ++ n).reverse = n.reverse ++ ('/' :: x.reverse) := by
    simp [List.reverse_append]
  rw [lastComponent, lastComponent, hrev, List.takeWhile_append]
  have hys : List.takeWhile (fun a => a != '/') ('/' :: x.reverse) = [] := by
    simp [List.takeWhile_cons]
  split
  · rename_i hlen
    have heq : List.takeWhile (fun a => a != '/') n.reverse = n.reverse :=
      (List.takeWhile_prefix _).sublist.eq_of_length hlen
    rw [hys, List.append_nil, heq]
  · rfl

/-- `drop` after the `takeWhile` of the same list is its `dropWhile`. -/
theorem drop_length_takeWhile (p : Char → Bool) (l : Str) :
    l.drop (l.takeWhile p).length = l.dropWhile p := by
  induction l with
  | nil => rfl
  | cons a t ih =>
    cases hpa : p a
    · simp [List.takeWhile_cons, List.dropWhile_cons, hpa]
    · simp [List.takeWhile_cons, List.dropWhile_cons, hpa, ih]

/-- The last path component is a suffix of the path. -/
theorem lastComponent_suffix (s : Str) : lastComponent s <:+ s := by
  rw [lastComponent]
  have h := List.takeWhile_prefix (l := s.reverse) (· != '/')
  exact List.reverse_prefix.mp (by simpa using h)

/-- C9 (amended): when no archive entry's path mentions `index.html` at all,
result materialization still succeeds — the Result lists every extracted
path — but its entry-point path is the root-level candidate
`<outputDir>/presentation/index.html` even though no such file was extracted;
in particular it is never the empty path the claim requires. -/
theorem c9_no_entry_point_root_path (outputDir : Str) (entries : List ZipEntry)
    (hno : ∀ f ∈ entries, strContains f.name "index.html".data = false) :
    (downloadResults outputDir entries).files =
      (entries.filter (fun f => !f.isDir)).map
        (fun f => outputDir ++ "/presentation".data ++ "/".data ++ f.name) ∧
    (downloadResults outputDir entries).indexPath =
      outputDir ++ "/presentation".data ++ "/index.html".data ∧
    (downloadResults outputDir entries).indexPath ≠ [] := by
  have hx11 : ("/index.html".data : Str) = "/".data ++ "index.html".data := by decide
  have hsplit : (outputDir ++ "/presentation".data ++ "/index.html".data : Str) =
      outputDir ++ "/presentation".data ++ "/".data ++ "index.html".data := by
    rw [hx11, ← List.append_assoc]
  have hlastn : ∀ f : ZipEntry,
      lastComponent (outputDir ++ "/presentation".data ++ "/".data ++ f.name) =
        lastComponent f.name :=
    fun f => lastComponent_append_slash (outputDir ++ "/presentation".data) f.name
  have hidx : lastComponent
      (outputDir ++ "/presentation".data ++ "/index.html".data) = "index.html".data := by
    rw [hsplit, lastComponent_append_slash]
    decide
  have hcontains :
      ((entries.filter (fun f => !f.isDir)).map
          (fun f => outputDir ++ "/presentation".data ++ "/".data ++ f.name)).contains
        (outputDir ++ "/presentation".data ++ "/index.html".data) = false := by
    cases hc : ((entries.filter (fun f => !f.isDir)).map
        (fun f => outputDir ++ "/presentation".data ++ "/".data ++ f.name)).contains
        (outputDir ++ "/presentation".data ++ "/index.html".data) with
    | false => rfl
    | true =>
      exfalso
      rw [List.contains_eq_any_beq, List.any_eq_true] at hc
      obtain ⟨a, ha, hbeq⟩ := hc
      rw [beq_iff_eq] at hbeq
      rw [List.mem_map] at ha
      obtain ⟨f, hf, rfl⟩ := ha
      have hfe : f ∈ entries := List.mem_of_mem_filter hf
      have h1 := hidx
      rw [hbeq, hlastn f] at h1
      have hsuf := lastComponent_suffix f.name
      rw [h1] at hsuf
      have hcc := strContains_of_infix hsuf.isInfix
      rw [hno f hfe] at hcc
      cases hcc
  have hglob :
      ((entries.filter (fun f => !f.isDir)).map
          (fun f => outputDir ++ "/presentation".data ++ "/".data ++ f.name)).filter
        (globStarIndexHtml (outputDir ++ "/presentation".data)) = [] := by
    rw [List.filter_eq_nil_iff]
    intro a ha hg
    rw [List.mem_map] at ha
    obtain ⟨f, hf, rfl⟩ := ha
    have hfe : f ∈ entries := List.mem_of_mem_filter hf
    rw [globStarIndexHtml, Bool.and_eq_true] at hg
    obtain ⟨_, hrest⟩ := hg
    have hdrop : (outputDir ++ "/presentation".data ++ "/".data ++ f.name).drop
        (outputDir ++ "/presentation".data ++ "/".data).length = f.name :=
      List.drop_left _ _
    rw [hdrop, beq_iff_eq, drop_length_takeWhile] at hrest
    have hsuf : f.name.dropWhile (· != '/') <:+ f.name := List.dropWhile_suffix _
    rw [hrest] at hsuf
    obtain ⟨t, ht⟩ := hsuf
    have hinf : ("index.html".data : Str) <:+: f.name :=
      ⟨t ++ "/".data, [], by rw [List.append_nil, List.append_assoc, ← hx11, ht]⟩
    have hcc := strContains_of_infix hinf
    rw [hno f hfe] at hcc
    cases hcc
  refine ⟨rfl, ?_, ?_⟩
  · simp only [downloadResults]
    rw [hcontains, if_neg (by simp), hglob]
  · simp only [downloadResults]
    rw [hcontains, if_neg (by simp), hglob]
    intro heq
    have hlen := congrArg List.length heq
    rw [List.length_append, List.length_append] at hlen
    have h11 : ("/index.html".data : Str).length = 11 := rfl
    rw [h11] at hlen
    simp at hlen

/-- Witness for C9's amended theorem on a concrete two-file archive. -/
theorem c9_no_entry_point_root_path_witness :
    (downloadResults "out".data [⟨"style.css".data, false⟩, ⟨"app.js".data, false⟩]).files =
      (([⟨"style.css".data, false⟩, ⟨"app.js".data, false⟩] : List ZipEntry).filter
          (fun f => !f.isDir)).map
        (fun f => "out".data ++ "/presentation".data ++ "/".data ++ f.name) ∧
    (downloadResults "out".data
        [⟨"style.css".data, false⟩, ⟨"app.js".data, false⟩]).indexPath =
      "out".data ++ "/presentation".data ++ "/index.html".data ∧
    (downloadResults "out".data
        [⟨"style.css".data, false⟩, ⟨"app.js".data, false⟩]).indexPath ≠ [] :=
  c9_no_entry_point_root_path "out".data
    [⟨"style.css".data, false⟩, ⟨"app.js".data, false⟩]
    (by decide)

/-- C10: every successful `AutoInstallForJob` call returns a response whose
`Successful` field equals the number of per-theme result entries — whatever
the per-entry `Success` flags say and whatever count the service supplied —
and whose result list is the decoded one. -/
theorem c10_successful_overwritten (resp : ThemesHttpResponse)
    (r : ThemeAutoInstallResponse) (h : autoInstallForJob resp = .ok r) :
    r.successful = r.results.length ∧ r.results = resp.body.results := by
  rw [autoInstallForJob] at h
  by_cases hs : resp.status ≠ 200
  · rw [if_pos hs] at h
    cases h
  · rw [if_neg hs] at h
    cases h
    exact ⟨rfl, rfl⟩

/-- Witness for C10: the service reports Successful = 99 over two entries that
both failed; the returned Successful is 2, the entry count. -/
theorem c10_successful_overwritten_witness :
    (⟨2, [⟨"theme-a".data, false⟩, ⟨"theme-b".data, false⟩]⟩ :
        ThemeAutoInstallResponse).successful =
      (⟨2, [⟨"theme-a".data, false⟩, ⟨"theme-b".data, false⟩]⟩ :
        ThemeAutoInstallResponse).results.length ∧
    (⟨2, [⟨"theme-a".data, false⟩, ⟨"theme-b".data, false⟩]⟩ :
        ThemeAutoInstallResponse).results =
      (⟨200, ⟨99, [⟨"theme-a".data, false⟩, ⟨"theme-b".data, false⟩]⟩⟩ :
        ThemesHttpResponse).body.results :=
  c10_successful_overwritten
    ⟨200, ⟨99, [⟨"theme-a".data, false⟩, ⟨"theme-b".data, false⟩]⟩⟩
    ⟨2, [⟨"theme-a".data, false⟩, ⟨"theme-b".data, false⟩]⟩
    rfl

end OcfWorker
